import Mathlib

/-!
Shallow embedding of the escalation-prediction core of
ComplaintsAnalysis/Predictor.py (class Predictor), together with proofs
about the recommendation policy, the one-hot encoding step, the scoring
loop, the product-classifier adapter and the post-processing performed
by the top-level predict method.

Probabilities are modelled by rationals (the source works with machine
floats; the policy constants 0.5 and 0.15 are taken at their exact
decimal values, as the specification does).  A sentiment feature row is
modelled as a total map from column names to rational values, matching
the pandas single-row data frame the source mutates column-wise.
Trained classifiers, the vectorizer and the scaler live outside the two
source files and are taken as function parameters.
-/

namespace ComplaintsAnalysis

/-- Python min over a list, as used on a non-empty list
(Predictor.py line 132: min of predict_probability_list).
Python folds min from the left over the list. -/
def listMin : List ℚ → ℚ
  | [] => 0
  | x :: xs => xs.foldl min x

/-- Python max over a list (np.argmax selects the first index attaining it). -/
def listMax : List ℚ → ℚ
  | [] => 0
  | x :: xs => xs.foldl max x

/-- Python list.index(v): index of the first occurrence of value v
(Predictor.py line 133).  Total version: on a list not containing v it
returns the length (the source only calls it with v a member). -/
def pyIndex : List ℚ → ℚ → ℕ
  | [], _ => 0
  | x :: xs, v => if x = v then 0 else pyIndex xs v + 1

/-- escalation_prob_thresh (Predictor.py line 113). -/
def escalation_prob_thresh : ℚ := 1/2

/-- suggested_prob_thresh = escalation_prob_thresh - 0.15 (line 131). -/
def suggested_prob_thresh : ℚ := escalation_prob_thresh - 15/100

/-- The recommendation loop of Predictor.py lines 134-138:

for index in np.arange(len(predict_probability_list)):
    if (predict_probability_list[index] < suggested_prob_thresh) and
       (predict_probability_list[index] > min_prob):
        min_prob = predict_probability_list[index]
        suggested_index = index

rendered as a structural walk over the list carrying the running index
and the state (min_prob, suggested_index). -/
def suggestLoop : List ℚ → ℕ → ℚ × ℕ → ℚ × ℕ
  | [], _, st => st
  | p :: ps, index, st =>
      suggestLoop ps (index + 1)
        (if p < suggested_prob_thresh ∧ st.1 < p then (p, index) else st)

/-- State (min_prob, suggested_index) after the loop, started from the
initialisation of lines 132-133: min_prob = min of the list,
suggested_index = first index attaining that minimum. -/
def recommendState (probs : List ℚ) : ℚ × ℕ :=
  suggestLoop probs 0 (listMin probs, pyIndex probs (listMin probs))

/-- suggested_index as computed by Predictor.py lines 131-138. -/
def suggested_index_of (probs : List ℚ) : ℕ :=
  (recommendState probs).2

/-- suggested_response = response_types[suggested_index] (line 140). -/
def suggestedResponse (response_types : List String) (probs : List ℚ) : String :=
  response_types.getD (suggested_index_of probs) ""

/-- The Boolean qualification test of the loop guard, with respect to
the initial minimum m: strictly below the ceiling and strictly above m. -/
def qualifies (m p : ℚ) : Bool :=
  decide (p < suggested_prob_thresh) && decide (m < p)

/-! ### One-hot encoding and the scoring loop of predict_escalation -/

/-- Column assignment on a single-row data frame modelled as a map from
column names to values: sentiment_metric[column] = value. -/
def updateCol (row : String → ℚ) (column : String) (value : ℚ) : String → ℚ :=
  fun k => if k = column then value else row k

/-- column_name_base + response (Predictor.py lines 81-82, 89). -/
def keyOf (response : String) : String := "company_response_" ++ response

/-- The inner zeroing loop of Predictor.py lines 87-88: every
company_response dummy column is set to 0. -/
def zeroCols (response_types : List String) (row : String → ℚ) : String → ℚ :=
  response_types.foldl (fun acc r => updateCol acc (keyOf r) 0) row

/-- The one-hot encoding step for one response type
(Predictor.py lines 86-90): zero every dummy column, then set the
column of the given response to 1. -/
def oneHotEncode (response_types : List String) (response : String)
    (row : String → ℚ) : String → ℚ :=
  updateCol (zeroCols response_types row) (keyOf response) 1

/-- One pass of the scoring loop body (Predictor.py lines 85-104):
one-hot encode the row in place, build the feature vector, append the
classifier's positive-class probability.  The classifier is an external
collaborator; the narrative vector and the non-dummy columns are fixed
across the loop, so it is modelled as a function of the (mutated) row.
The dead call to clf_escalation.predict on line 93 binds an unused
variable and is omitted. -/
def scoreStep (response_types : List String) (clf : (String → ℚ) → ℚ)
    (acc : List ℚ × (String → ℚ)) (response : String) : List ℚ × (String → ℚ) :=
  (acc.1 ++ [clf (oneHotEncode response_types response acc.2)],
   oneHotEncode response_types response acc.2)

/-- The scoring loop of Predictor.py lines 85-104: one probability per
response type, threaded through the shared mutable sentiment row. -/
def scoreAll (response_types : List String) (clf : (String → ℚ) → ℚ)
    (row0 : String → ℚ) : List ℚ × (String → ℚ) :=
  response_types.foldl (scoreStep response_types clf) ([], row0)

/-- Result of predict_escalation (Predictor.py lines 75-142): the path
of the saved bar chart, the suggested response, the probability list,
and — to make the in-place mutation of the sentiment row observable in
the embedding — the final state of the row. -/
structure EscalationResult where
  fig : String
  response : String
  probs : List ℚ
  finalRow : String → ℚ

/-- predict_escalation: score every response type, save the bar chart,
and suggest response_types[suggested_index] by the policy of
lines 131-140. -/
def predict_escalation (response_types : List String)
    (clf : (String → ℚ) → ℚ) (row0 : String → ℚ) : EscalationResult :=
  let scored := scoreAll response_types clf row0
  { fig := "static/escalation_prob.png"
    response := suggestedResponse response_types scored.1
    probs := scored.1
    finalRow := scored.2 }

/-! ### The top-level predict method -/

/-- Modelled from the spec: get_response_types (ComplaintsAnalysis/
Utilities.py, not under src/) returns the fixed, ordered enumeration of
company-response labels; the spec names "Closed with explanation",
"Closed with monetary relief", "Closed with non-monetary relief" and
"Untimely response" as its canonical order. -/
def RESPONSE_TYPES : List String :=
  ["Closed with explanation", "Closed with monetary relief",
   "Closed with non-monetary relief", "Untimely response"]

/-- Python str.capitalize(): first character upper-cased, the rest
lower-cased (ASCII, which covers the response labels). -/
def pyCapitalize (s : String) : String :=
  match s.data with
  | [] => ""
  | c :: cs => String.mk (c.toUpper :: cs.map Char.toLower)

/-- re.sub with a literal pattern: scan left to right, replace every
non-overlapping occurrence.  Written with a character-count fuel so the
recursion is structural; the fuel is the length of the scanned text,
which the scan never outruns. -/
def subAll (pattern repl : List Char) : ℕ → List Char → List Char
  | 0, s => s
  | _, [] => []
  | fuel + 1, c :: cs =>
      if pattern ≠ [] ∧ pattern.isPrefixOf (c :: cs) then
        repl ++ subAll pattern repl fuel ((c :: cs).drop pattern.length)
      else
        c :: subAll pattern repl fuel cs

/-- re.sub(pattern, repl, s) for a literal pattern. -/
def pyReSub (pattern repl s : String) : String :=
  String.mk (subAll pattern.data repl.data s.data.length s.data)

/-- Python s.split(sep) for a one-character separator: the chunks
between separator occurrences (an empty input gives one empty chunk,
as in Python). -/
def splitChunks (sep : Char) : List Char → List (List Char)
  | [] => [[]]
  | c :: cs =>
      if c = sep then [] :: splitChunks sep cs
      else
        match splitChunks sep cs with
        | [] => [[c]]
        | g :: gs => (c :: g) :: gs

/-- Python s.split(sep)[-1]: the last chunk (split never returns an
empty list). -/
def pySplitLast (sep : Char) (s : String) : String :=
  String.mk ((splitChunks sep s.data).getLastD [])

/-- The post-processing predict applies to the suggested response
(Predictor.py lines 60-61): keep the last chunk after splitting on an
underscore, delete every occurrence of the prefix text "Closed with ",
then capitalize. -/
def postprocessResponse (response : String) : String :=
  pyCapitalize (pyReSub "Closed with " "" (pySplitLast '_' response))

/-- The response string the predict method returns
(Predictor.py lines 57-63). -/
def predictResponse (response_types : List String)
    (clf : (String → ℚ) → ℚ) (row0 : String → ℚ) : String :=
  postprocessResponse (predict_escalation response_types clf row0).response

/-- The operations the predict method performs, in source order
(Predictor.py lines 40-58).  The inputRejected constructor exists only
to state claims about input validation; the method never emits it. -/
inductive PredictStep where
  | sentimentGen (narrative : String)
  | scalerTransform
  | preprocessNarrative
  | vectorizeNarrative
  | productPredict
  | escalationPredict
  | inputRejected
  deriving DecidableEq

/-- Trace of the operations predict runs on a narrative, in source
order: sentiment-metric generation, scaling, text preprocessing,
vectorization, product prediction, escalation prediction.  The body of
predict is straight-line code with no conditional. -/
def predictSteps (narrative : String) : List PredictStep :=
  [PredictStep.sentimentGen narrative, PredictStep.scalerTransform,
   PredictStep.preprocessNarrative, PredictStep.vectorizeNarrative,
   PredictStep.productPredict, PredictStep.escalationPredict]

/-! ### The product classifier adapter -/

/-- np.argmax over a probability list: index of the first occurrence of
the maximum (Predictor.py line 69). -/
def argmax (probs : List ℚ) : ℕ := pyIndex probs (listMax probs)

/-- predict_product_type (Predictor.py lines 65-73): index the product
label enumeration at the arg-max of the classifier's per-class
probability output.  Python raises IndexError when the index is out of
range, modelled by none; no dimensionality check is performed. -/
def predict_product_type (PRODUCT_LABELS : List String)
    (product_type_prob : List ℚ) : Option String :=
  PRODUCT_LABELS.get? (argmax product_type_prob)

/-- A concrete escalation classifier realising the probability vector of
the specification scenario {explanation: 0.6, monetary relief: 0.05,
non-monetary relief: 0.30, untimely: 0.9}: it reads which one-hot dummy
column of the row is set. -/
def clfScenario : (String → ℚ) → ℚ :=
  fun row =>
    if row (keyOf "Closed with explanation") = 1 then 6/10
    else if row (keyOf "Closed with monetary relief") = 1 then 5/100
    else if row (keyOf "Closed with non-monetary relief") = 1 then 30/100
    else 9/10

end ComplaintsAnalysis

namespace ComplaintsAnalysis

/-! ### Elementary facts about listMin, listMax and pyIndex -/

theorem foldl_min_le_acc (xs : List ℚ) (a : ℚ) : xs.foldl min a ≤ a := by
  induction xs generalizing a with
  | nil => simp
  | cons x xs ih =>
      simpa using le_trans (ih (min a x)) (min_le_left a x)

theorem foldl_min_le_mem {x : ℚ} {xs : List ℚ} (h : x ∈ xs) (a : ℚ) :
    xs.foldl min a ≤ x := by
  induction xs generalizing a with
  | nil => cases h
  | cons y ys ih =>
      rcases List.mem_cons.mp h with rfl | hx
      · simpa using le_trans (foldl_min_le_acc ys (min a x)) (min_le_right a x)
      · simpa using ih hx (min a y)

theorem foldl_min_eq_acc_or_mem (xs : List ℚ) (a : ℚ) :
    xs.foldl min a = a ∨ xs.foldl min a ∈ xs := by
  induction xs generalizing a with
  | nil => left; rfl
  | cons x xs ih =>
      rcases ih (min a x) with h | h
      · rcases min_cases a x with ⟨h1, _⟩ | ⟨h1, _⟩
        · left; simpa [h1] using h
        · right; rw [List.foldl_cons, h, h1]; exact List.mem_cons_self x xs
      · right; exact List.mem_cons_of_mem x h

theorem listMin_le {x : ℚ} {l : List ℚ} (h : x ∈ l) : listMin l ≤ x := by
  cases l with
  | nil => cases h
  | cons y ys =>
      rcases List.mem_cons.mp h with rfl | hx
      · exact foldl_min_le_acc ys x
      · exact foldl_min_le_mem hx y

theorem listMin_mem {l : List ℚ} (h : l ≠ []) : listMin l ∈ l := by
  cases l with
  | nil => exact absurd rfl h
  | cons y ys =>
      rcases foldl_min_eq_acc_or_mem ys y with h1 | h1
      · rw [listMin, h1]; exact List.mem_cons_self y ys
      · exact List.mem_cons_of_mem y h1

theorem acc_le_foldl_max (xs : List ℚ) (a : ℚ) : a ≤ xs.foldl max a := by
  induction xs generalizing a with
  | nil => simp
  | cons x xs ih =>
      simpa using le_trans (le_max_left a x) (ih (max a x))

theorem mem_le_foldl_max {x : ℚ} {xs : List ℚ} (h : x ∈ xs) (a : ℚ) :
    x ≤ xs.foldl max a := by
  induction xs generalizing a with
  | nil => cases h
  | cons y ys ih =>
      rcases List.mem_cons.mp h with rfl | hx
      · simpa using le_trans (le_max_right a x) (acc_le_foldl_max ys (max a x))
      · simpa using ih hx (max a y)

theorem foldl_max_eq_acc_or_mem (xs : List ℚ) (a : ℚ) :
    xs.foldl max a = a ∨ xs.foldl max a ∈ xs := by
  induction xs generalizing a with
  | nil => left; rfl
  | cons x xs ih =>
      rcases ih (max a x) with h | h
      · rcases max_cases a x with ⟨h1, _⟩ | ⟨h1, _⟩
        · left; simpa [h1] using h
        · right; rw [List.foldl_cons, h, h1]; exact List.mem_cons_self x xs
      · right; exact List.mem_cons_of_mem x h

theorem le_listMax {x : ℚ} {l : List ℚ} (h : x ∈ l) : x ≤ listMax l := by
  cases l with
  | nil => cases h
  | cons y ys =>
      rcases List.mem_cons.mp h with rfl | hx
      · exact acc_le_foldl_max ys x
      · exact mem_le_foldl_max hx y

theorem listMax_mem {l : List ℚ} (h : l ≠ []) : listMax l ∈ l := by
  cases l with
  | nil => exact absurd rfl h
  | cons y ys =>
      rcases foldl_max_eq_acc_or_mem ys y with h1 | h1
      · rw [listMax, h1]; exact List.mem_cons_self y ys
      · exact List.mem_cons_of_mem y h1

theorem listMax_eq_of {a : ℚ} {l : List ℚ} (ha : a ∈ l)
    (hmax : ∀ x ∈ l, x ≤ a) : listMax l = a :=
  le_antisymm (hmax _ (listMax_mem (List.ne_nil_of_mem ha))) (le_listMax ha)

theorem pyIndex_lt_length {v : ℚ} {l : List ℚ} (h : v ∈ l) :
    pyIndex l v < l.length := by
  induction l with
  | nil => cases h
  | cons x xs ih =>
      by_cases hx : x = v
      · simp [pyIndex, hx]
      · rcases List.mem_cons.mp h with rfl | hv
        · exact absurd rfl hx
        · simpa [pyIndex, hx, Nat.succ_lt_succ_iff] using ih hv

theorem pyIndex_getD {v : ℚ} {l : List ℚ} (h : v ∈ l) :
    l.getD (pyIndex l v) 0 = v := by
  induction l with
  | nil => cases h
  | cons x xs ih =>
      by_cases hx : x = v
      · simp [pyIndex, hx]
      · rcases List.mem_cons.mp h with rfl | hv
        · exact absurd rfl hx
        · simpa [pyIndex, hx] using ih hv

theorem pyIndex_cons_of_ne {v x : ℚ} (xs : List ℚ) (h : x ≠ v) :
    pyIndex (x :: xs) v = pyIndex xs v + 1 := by
  simp [pyIndex, h]

theorem pyIndex_head (x : ℚ) (xs : List ℚ) : pyIndex (x :: xs) x = 0 := by
  simp [pyIndex]

theorem qualifies_iff (m p : ℚ) :
    qualifies m p = true ↔ p < suggested_prob_thresh ∧ m < p := by
  simp [qualifies]

/-! ### Characterisation of the recommendation loop

The loop of Predictor.py lines 134-138 starts from the arg-min state and
replaces it whenever an element lies strictly below the ceiling and
strictly above the current best.  Its final state is: the initial state
when no element of the (remaining) list qualifies against the initial
value, and otherwise the largest qualifying element together with the
(absolute) index of its first occurrence. -/

theorem suggestLoop_spec (l : List ℚ) (k : ℕ) (v : ℚ) (i : ℕ) :
    suggestLoop l k (v, i) =
      if l.filter (qualifies v) = [] then (v, i)
      else (listMax (l.filter (qualifies v)),
            k + pyIndex l (listMax (l.filter (qualifies v)))) := by
  induction l generalizing k v i with
  | nil => simp [suggestLoop]
  | cons p ps ih =>
      by_cases hq : p < suggested_prob_thresh ∧ v < p
      · have hqp : qualifies v p = true := (qualifies_iff v p).mpr hq
        have hfil : (p :: ps).filter (qualifies v) = p :: ps.filter (qualifies v) :=
          List.filter_cons_of_pos hqp
        have hstep : suggestLoop (p :: ps) k (v, i) = suggestLoop ps (k + 1) (p, k) := by
          simp [suggestLoop, hq]
        rw [hstep, ih, hfil]
        by_cases hq2 : ps.filter (qualifies p) = []
        · have hle : ∀ x ∈ p :: ps.filter (qualifies v), x ≤ p := by
            intro x hx
            rcases List.mem_cons.mp hx with rfl | hx
            · exact le_refl x
            · obtain ⟨hxps, hxq⟩ := List.mem_filter.mp hx
              obtain ⟨hxt, _⟩ := (qualifies_iff v x).mp hxq
              by_contra hlt
              push_neg at hlt
              have : x ∈ ps.filter (qualifies p) :=
                List.mem_filter.mpr ⟨hxps, (qualifies_iff p x).mpr ⟨hxt, hlt⟩⟩
              rw [hq2] at this
              cases this
          have hmaxp : listMax (p :: ps.filter (qualifies v)) = p :=
            listMax_eq_of (List.mem_cons_self _ _) hle
          rw [if_pos hq2, if_neg (List.cons_ne_nil _ _), hmaxp, pyIndex_head]
          simp
        · have hM := listMax_mem hq2
          obtain ⟨hMps, hMq⟩ := List.mem_filter.mp hM
          obtain ⟨hMt, hpM⟩ := (qualifies_iff p _).mp hMq
          have hMv : qualifies v (listMax (ps.filter (qualifies p))) = true :=
            (qualifies_iff v _).mpr ⟨hMt, lt_trans hq.2 hpM⟩
          have hMmem : listMax (ps.filter (qualifies p)) ∈ p :: ps.filter (qualifies v) :=
            List.mem_cons_of_mem _ (List.mem_filter.mpr ⟨hMps, hMv⟩)
          have hle : ∀ x ∈ p :: ps.filter (qualifies v),
              x ≤ listMax (ps.filter (qualifies p)) := by
            intro x hx
            rcases List.mem_cons.mp hx with rfl | hx
            · exact le_of_lt hpM
            · obtain ⟨hxps, hxq⟩ := List.mem_filter.mp hx
              obtain ⟨hxt, _⟩ := (qualifies_iff v x).mp hxq
              by_cases hpx : p < x
              · exact le_listMax
                  (List.mem_filter.mpr ⟨hxps, (qualifies_iff p x).mpr ⟨hxt, hpx⟩⟩)
              · exact le_trans (le_of_not_lt hpx) (le_of_lt hpM)
          have hmax_eq : listMax (p :: ps.filter (qualifies v)) =
              listMax (ps.filter (qualifies p)) := listMax_eq_of hMmem hle
          rw [if_neg hq2, if_neg (List.cons_ne_nil _ _), hmax_eq,
            pyIndex_cons_of_ne _ (ne_of_lt hpM)]
          refine Prod.ext rfl ?_
          simp only
          omega
      · have hqp : qualifies v p = false := by
          rcases not_and_or.mp hq with h | h <;> simp [qualifies, h]
        have hfil : (p :: ps).filter (qualifies v) = ps.filter (qualifies v) :=
          List.filter_cons_of_neg (by simp [hqp])
        have hstep : suggestLoop (p :: ps) k (v, i) = suggestLoop ps (k + 1) (v, i) := by
          simp [suggestLoop, hq]
        rw [hstep, ih, hfil]
        by_cases hq2 : ps.filter (qualifies v) = []
        · rw [if_pos hq2, if_pos hq2]
        · have hM := listMax_mem hq2
          obtain ⟨hMps, hMq⟩ := List.mem_filter.mp hM
          have hpM : p ≠ listMax (ps.filter (qualifies v)) := by
            intro hcontra
            obtain ⟨hMt, hvM⟩ := (qualifies_iff v _).mp hMq
            exact hq ⟨hcontra ▸ hMt, hcontra ▸ hvM⟩
          rw [if_neg hq2, if_neg hq2, pyIndex_cons_of_ne _ hpM]
          refine Prod.ext rfl ?_
          simp only
          omega

/-- Final state of the recommendation policy in terms of the qualifying
probabilities: the arg-min state when no probability lies strictly
between the global minimum and the ceiling, else the largest such
probability with the index of its first occurrence. -/
theorem recommendState_spec (probs : List ℚ) :
    recommendState probs =
      if probs.filter (qualifies (listMin probs)) = []
      then (listMin probs, pyIndex probs (listMin probs))
      else (listMax (probs.filter (qualifies (listMin probs))),
            pyIndex probs (listMax (probs.filter (qualifies (listMin probs))))) := by
  unfold recommendState
  rw [suggestLoop_spec]
  split <;> simp


/-! ### Lemmas about the one-hot encoding and the scoring loop -/

theorem keyOf_injective {a b : String} (h : keyOf a = keyOf b) : a = b := by
  unfold keyOf at h
  have hd : "company_response_".data ++ a.data =
      "company_response_".data ++ b.data := congrArg String.data h
  cases a; cases b
  exact congrArg String.mk (List.append_cancel_left hd)

theorem keyOf_eq_iff (a b : String) : keyOf a = keyOf b ↔ a = b :=
  ⟨keyOf_injective, fun h => h ▸ rfl⟩

theorem zeroCols_eval (response_types : List String) (row : String → ℚ)
    (k : String) :
    zeroCols response_types row k =
      if ∃ r ∈ response_types, keyOf r = k then 0 else row k := by
  induction response_types generalizing row with
  | nil => simp [zeroCols]
  | cons r rs ih =>
      have hstep : zeroCols (r :: rs) row =
          zeroCols rs (updateCol row (keyOf r) 0) := rfl
      rw [hstep, ih]
      by_cases h1 : ∃ x ∈ rs, keyOf x = k
      · obtain ⟨x, hx, hk⟩ := h1
        rw [if_pos ⟨x, hx, hk⟩, if_pos ⟨x, List.mem_cons_of_mem _ hx, hk⟩]
      · rw [if_neg h1]
        by_cases h2 : k = keyOf r
        · simp only [updateCol, if_pos h2]
          rw [if_pos ⟨r, List.mem_cons_self _ _, h2.symm⟩]
        · simp only [updateCol, if_neg h2]
          rw [if_neg]
          rintro ⟨x, hx, hk⟩
          rcases List.mem_cons.mp hx with rfl | hx
          · exact h2 hk.symm
          · exact h1 ⟨x, hx, hk⟩

theorem oneHotEncode_eval (response_types : List String) (response : String)
    (row : String → ℚ) (k : String) :
    oneHotEncode response_types response row k =
      if k = keyOf response then 1
      else if ∃ r ∈ response_types, keyOf r = k then 0 else row k := by
  by_cases h : k = keyOf response
  · simp [oneHotEncode, updateCol, h]
  · simp only [oneHotEncode, updateCol, if_neg h]
    exact zeroCols_eval response_types row k

/-- Re-encoding over an already encoded row erases the earlier one-hot
choice, provided the earlier response is one of the enumerated response
types (in the source it always is: the loop variable ranges over
response_types). -/
theorem oneHotEncode_collapse (response_types : List String)
    (r prior : String) (row : String → ℚ) (hprior : prior ∈ response_types) :
    oneHotEncode response_types r (oneHotEncode response_types prior row) =
      oneHotEncode response_types r row := by
  funext k
  rw [oneHotEncode_eval, oneHotEncode_eval, oneHotEncode_eval]
  by_cases h1 : k = keyOf r
  · rw [if_pos h1, if_pos h1]
  · rw [if_neg h1, if_neg h1]
    by_cases h2 : ∃ x ∈ response_types, keyOf x = k
    · rw [if_pos h2, if_pos h2]
    · rw [if_neg (show ¬k = keyOf prior from fun hk => h2 ⟨prior, hprior, hk.symm⟩),
        if_neg h2, if_neg h2]

theorem scoreLoop_fst (response_types : List String) (clf : (String → ℚ) → ℚ) :
    ∀ (rs : List String) (acc : List ℚ) (row : String → ℚ),
      (∀ r ∈ rs, r ∈ response_types) →
      (rs.foldl (scoreStep response_types clf) (acc, row)).1 =
        acc ++ rs.map (fun r => clf (oneHotEncode response_types r row)) := by
  intro rs
  induction rs with
  | nil => intro acc row _; simp
  | cons r1 rs2 ih =>
      intro acc row hsub
      have h1 : r1 ∈ response_types := hsub r1 (List.mem_cons_self _ _)
      have hstep : (r1 :: rs2).foldl (scoreStep response_types clf) (acc, row) =
          rs2.foldl (scoreStep response_types clf)
            (acc ++ [clf (oneHotEncode response_types r1 row)],
             oneHotEncode response_types r1 row) := rfl
      rw [hstep, ih _ _ (fun r hr => hsub r (List.mem_cons_of_mem _ hr))]
      have hmap : (fun r => clf (oneHotEncode response_types r
            (oneHotEncode response_types r1 row))) =
          (fun r => clf (oneHotEncode response_types r row)) := by
        funext r
        rw [oneHotEncode_collapse _ _ _ _ h1]
      rw [hmap]
      simp

theorem scoreLoop_snd (response_types : List String) (clf : (String → ℚ) → ℚ) :
    ∀ (rs : List String) (acc : List ℚ) (row : String → ℚ),
      (∀ r ∈ rs, r ∈ response_types) → rs ≠ [] →
      (rs.foldl (scoreStep response_types clf) (acc, row)).2 =
        oneHotEncode response_types (rs.getLastD "") row := by
  intro rs
  induction rs with
  | nil => intro acc row _ hne; exact absurd rfl hne
  | cons r1 rs2 ih =>
      intro acc row hsub _
      have h1 : r1 ∈ response_types := hsub r1 (List.mem_cons_self _ _)
      have hstep : (r1 :: rs2).foldl (scoreStep response_types clf) (acc, row) =
          rs2.foldl (scoreStep response_types clf)
            (acc ++ [clf (oneHotEncode response_types r1 row)],
             oneHotEncode response_types r1 row) := rfl
      rw [hstep]
      cases rs2 with
      | nil => rfl
      | cons r2 rs3 =>
          rw [ih _ _ (fun r hr => hsub r (List.mem_cons_of_mem _ hr))
            (List.cons_ne_nil _ _)]
          rw [oneHotEncode_collapse _ _ _ _ h1]
          rfl

/-- The probability list collected by the scoring loop: exactly one
entry per response type, in canonical order, each the classifier output
on the row one-hot encoded for that response type. -/
theorem scoreAll_fst (response_types : List String) (clf : (String → ℚ) → ℚ)
    (row0 : String → ℚ) :
    (scoreAll response_types clf row0).1 =
      response_types.map (fun r => clf (oneHotEncode response_types r row0)) := by
  unfold scoreAll
  rw [scoreLoop_fst response_types clf response_types [] row0 (fun _ h => h)]
  rfl

theorem scoreAll_snd (response_types : List String) (clf : (String → ℚ) → ℚ)
    (row0 : String → ℚ) (hne : response_types ≠ []) :
    (scoreAll response_types clf row0).2 =
      oneHotEncode response_types (response_types.getLastD "") row0 :=
  scoreLoop_snd response_types clf response_types [] row0 (fun _ h => h) hne

/-! ### Small list helpers -/

theorem getD_mem {α : Type} {l : List α} {i : ℕ} (h : i < l.length) (d : α) :
    l.getD i d ∈ l := by
  induction l generalizing i with
  | nil => simp at h
  | cons x xs ih =>
      cases i with
      | zero => simp
      | succ n =>
          have : xs.getD n d ∈ xs := ih (by simpa using h)
          simpa using Or.inr this

theorem get?_eq_getD {α : Type} {l : List α} {i : ℕ} (h : i < l.length) (d : α) :
    l.get? i = some (l.getD i d) := by
  induction l generalizing i with
  | nil => simp at h
  | cons x xs ih =>
      cases i with
      | zero => rfl
      | succ n => simpa using ih (by simpa using h)

theorem pyIndex_eq {l : List ℚ} {v : ℚ} {n : ℕ} (hn : n < l.length)
    (hv : l.getD n 0 = v) (hbefore : ∀ j, j < n → l.getD j 0 ≠ v) :
    pyIndex l v = n := by
  induction l generalizing n with
  | nil => simp at hn
  | cons x xs ih =>
      cases n with
      | zero =>
          have hx : x = v := by simpa using hv
          simp [pyIndex, hx]
      | succ m =>
          have hx : x ≠ v := by simpa using hbefore 0 (Nat.succ_pos m)
          rw [pyIndex_cons_of_ne _ hx]
          have hm : pyIndex xs v = m :=
            ih (by simpa using hn) (by simpa using hv)
              (fun j hj => by simpa using hbefore (j + 1) (Nat.succ_lt_succ hj))
          omega

/-- The suggested index is always a valid index into the probability
list (hence into the response-type list, which has the same length). -/
theorem suggested_index_lt {probs : List ℚ} (hne : probs ≠ []) :
    suggested_index_of probs < probs.length := by
  unfold suggested_index_of
  rw [recommendState_spec]
  by_cases h : probs.filter (qualifies (listMin probs)) = []
  · rw [if_pos h]
    exact pyIndex_lt_length (listMin_mem hne)
  · rw [if_neg h]
    exact pyIndex_lt_length (List.mem_filter.mp (listMax_mem h)).1

theorem exists_getD_of_mem {α : Type} {x : α} {l : List α} (h : x ∈ l) (d : α) :
    ∃ j, j < l.length ∧ l.getD j d = x := by
  induction l with
  | nil => cases h
  | cons y ys ih =>
      rcases List.mem_cons.mp h with rfl | h2
      · exact ⟨0, by simp, rfl⟩
      · obtain ⟨j, hj, hx⟩ := ih h2
        exact ⟨j + 1, by simpa using hj, by simpa using hx⟩

theorem get?_eq_none_of_le {α : Type} {l : List α} {n : ℕ} (h : l.length ≤ n) :
    l.get? n = none := by
  induction l generalizing n with
  | nil => rfl
  | cons x xs ih =>
      cases n with
      | zero => simp at h
      | succ m => simpa using ih (by simpa using h)

/-- The probability list of the scenario classifier on the canonical
response types, starting from an all-zero row. -/
theorem clfScenario_probs :
    (scoreAll RESPONSE_TYPES clfScenario (fun _ => 0)).1 =
      [6/10, 5/100, 30/100, 9/10] := by
  norm_num +decide [scoreAll, scoreStep, RESPONSE_TYPES, oneHotEncode, zeroCols,
    updateCol, keyOf_eq_iff, clfScenario]

/-- The response predict_escalation selects in the scenario. -/
theorem clfScenario_response :
    (predict_escalation RESPONSE_TYPES clfScenario (fun _ => 0)).response =
      "Closed with non-monetary relief" := by
  show suggestedResponse RESPONSE_TYPES
    (scoreAll RESPONSE_TYPES clfScenario (fun _ => 0)).1 = _
  rw [clfScenario_probs]
  norm_num [suggestedResponse, suggested_index_of, recommendState, suggestLoop,
    listMin, pyIndex, min_def, suggested_prob_thresh, escalation_prob_thresh,
    RESPONSE_TYPES]

/-! ### Claims -/

/-- C1: For every non-empty probability list, the recommendation policy
of predict_escalation selects the largest probability strictly below the
ceiling 0.35 and strictly above the global minimum (the suggested index
is the first index attaining it, and the suggested response the
response type at that index); when no probability lies strictly between
the global minimum and the ceiling, it falls back on the first index
attaining the global minimum.  In particular on [0.6, 0.05, 0.30, 0.9]
it selects index 2 (probability 0.30), not the minimum. -/
theorem recommendation_policy (response_types : List String) (probs : List ℚ)
    (hne : probs ≠ []) (m : ℚ) (hm : m = listMin probs)
    (Q : List ℚ) (hQ : Q = probs.filter (qualifies m)) :
    (Q ≠ [] →
      suggested_index_of probs = pyIndex probs (listMax Q) ∧
      probs.getD (suggested_index_of probs) 0 = listMax Q ∧
      listMax Q < suggested_prob_thresh ∧ m < listMax Q ∧
      suggestedResponse response_types probs =
        response_types.getD (pyIndex probs (listMax Q)) "") ∧
    (Q = [] →
      suggested_index_of probs = pyIndex probs m ∧
      probs.getD (suggested_index_of probs) 0 = m) ∧
    suggested_index_of [6/10, 5/100, 30/100, 9/10] = 2 := by
  subst hm
  subst hQ
  refine ⟨?_, ?_, ?_⟩
  · intro hQne
    have hidx : suggested_index_of probs =
        pyIndex probs (listMax (probs.filter (qualifies (listMin probs)))) := by
      unfold suggested_index_of
      rw [recommendState_spec, if_neg hQne]
    obtain ⟨hmemp, hq⟩ := List.mem_filter.mp (listMax_mem hQne)
    obtain ⟨ht, hgt⟩ := (qualifies_iff _ _).mp hq
    refine ⟨hidx, ?_, ht, hgt, ?_⟩
    · rw [hidx]
      exact pyIndex_getD hmemp
    · unfold suggestedResponse
      rw [hidx]
  · intro hQnil
    have hidx : suggested_index_of probs = pyIndex probs (listMin probs) := by
      unfold suggested_index_of
      rw [recommendState_spec, if_pos hQnil]
    refine ⟨hidx, ?_⟩
    rw [hidx]
    exact pyIndex_getD (listMin_mem hne)
  · norm_num [suggested_index_of, recommendState, suggestLoop, listMin, pyIndex,
      min_def, suggested_prob_thresh, escalation_prob_thresh]

/-- Witness for C1 at the specification's concrete scenario. -/
theorem recommendation_policy_witness :
    suggested_index_of [6/10, 5/100, 30/100, 9/10] = 2 :=
  (recommendation_policy RESPONSE_TYPES [6/10, 5/100, 30/100, 9/10]
    (by simp) _ rfl _ rfl).2.2

/-- C2: When all probabilities are equal the loop guard never fires
(nothing is strictly above the minimum), so the suggested index is the
arg-min tie-break: the first response type in canonical order. -/
theorem tie_break_first_response (response_types : List String) (probs : List ℚ)
    (c : ℚ) (hne : probs ≠ []) (hall : ∀ p ∈ probs, p = c) :
    suggested_index_of probs = 0 ∧
    suggestedResponse response_types probs = response_types.getD 0 "" := by
  have hmin : listMin probs = c := hall _ (listMin_mem hne)
  have hfil : probs.filter (qualifies (listMin probs)) = [] := by
    rw [List.filter_eq_nil_iff]
    intro p hp hq
    obtain ⟨_, hgt⟩ := (qualifies_iff _ _).mp hq
    rw [hmin, hall p hp] at hgt
    exact lt_irrefl c hgt
  have hidx0 : suggested_index_of probs = 0 := by
    unfold suggested_index_of
    rw [recommendState_spec, if_pos hfil]
    cases probs with
    | nil => exact absurd rfl hne
    | cons p ps =>
        have hp : p = c := hall p (List.mem_cons_self _ _)
        subst hp
        rw [hmin]
        exact pyIndex_head p ps
  refine ⟨hidx0, ?_⟩
  unfold suggestedResponse
  rw [hidx0]

/-- Witness for C2 at the specification's tie-break scenario. -/
theorem tie_break_first_response_witness :
    suggested_index_of [4/10, 4/10, 4/10, 4/10] = 0 ∧
    suggestedResponse RESPONSE_TYPES [4/10, 4/10, 4/10, 4/10] =
      "Closed with explanation" :=
  tie_break_first_response RESPONSE_TYPES [4/10, 4/10, 4/10, 4/10] (4/10)
    (by simp)
    (by
      intro p hp
      simp only [List.mem_cons, List.not_mem_nil, or_false] at hp
      rcases hp with rfl | rfl | rfl | rfl <;> rfl)

/-- C3: After the one-hot encoding step for response type r, whatever
the prior state of the dummy columns, the column of r holds 1 and every
other enumerated dummy column holds 0; in particular encoding A and
then B never leaves the bit of A set. -/
theorem one_hot_isolation (response_types : List String) (r : String)
    (row : String → ℚ) (hr : r ∈ response_types) :
    oneHotEncode response_types r row (keyOf r) = 1 ∧
    (∀ r2 ∈ response_types, r2 ≠ r →
      oneHotEncode response_types r row (keyOf r2) = 0) ∧
    (∀ rA ∈ response_types, rA ≠ r →
      oneHotEncode response_types r (oneHotEncode response_types rA row)
        (keyOf rA) = 0) := by
  refine ⟨?_, ?_, ?_⟩
  · rw [oneHotEncode_eval, if_pos rfl]
  · intro r2 hr2 hne2
    rw [oneHotEncode_eval, if_neg (fun h => hne2 (keyOf_injective h)),
      if_pos ⟨r2, hr2, rfl⟩]
  · intro rA hrA hneA
    rw [oneHotEncode_eval, if_neg (fun h => hneA (keyOf_injective h)),
      if_pos ⟨rA, hrA, rfl⟩]

/-- Witness for C3: encode explanation, then monetary relief, over a
row whose columns all start at 37; the bit of monetary relief is 1 and
the bit of explanation has been cleared. -/
theorem one_hot_isolation_witness :
    oneHotEncode RESPONSE_TYPES "Closed with monetary relief"
      (oneHotEncode RESPONSE_TYPES "Closed with explanation" (fun _ => 37))
      (keyOf "Closed with monetary relief") = 1 ∧
    oneHotEncode RESPONSE_TYPES "Closed with monetary relief"
      (oneHotEncode RESPONSE_TYPES "Closed with explanation" (fun _ => 37))
      (keyOf "Closed with explanation") = 0 := by
  have h := one_hot_isolation RESPONSE_TYPES "Closed with monetary relief"
    (oneHotEncode RESPONSE_TYPES "Closed with explanation" (fun _ => 37))
    (by decide)
  exact ⟨h.1, h.2.1 "Closed with explanation" (by decide) (by decide)⟩

/-- C4: The probability list predict_escalation builds has exactly one
entry per response type, in canonical order (entry i is the classifier
output for the row one-hot encoded for response type i — the shared
mutable row does not leak between iterations), and, when the
classifier's outputs lie in [0,1], every entry lies in [0,1]. -/
theorem probability_vector_complete (response_types : List String)
    (clf : (String → ℚ) → ℚ) (row0 : String → ℚ)
    (hclf : ∀ row, 0 ≤ clf row ∧ clf row ≤ 1) :
    (scoreAll response_types clf row0).1 =
      response_types.map (fun r => clf (oneHotEncode response_types r row0)) ∧
    (scoreAll response_types clf row0).1.length = response_types.length ∧
    ∀ p ∈ (scoreAll response_types clf row0).1, 0 ≤ p ∧ p ≤ 1 := by
  have h1 := scoreAll_fst response_types clf row0
  refine ⟨h1, by rw [h1, List.length_map], ?_⟩
  intro p hp
  rw [h1] at hp
  obtain ⟨r, _, rfl⟩ := List.mem_map.mp hp
  exact hclf _

/-- Witness for C4 with the constant classifier one half. -/
theorem probability_vector_complete_witness :
    (scoreAll RESPONSE_TYPES (fun _ => (1 : ℚ)/2) (fun _ => 0)).1.length =
      RESPONSE_TYPES.length :=
  (probability_vector_complete RESPONSE_TYPES (fun _ => (1 : ℚ)/2) (fun _ => 0)
    (fun _ => by norm_num)).2.1

/-- C5 counterexample: on the specification's own scenario the string
predict returns is "Non-monetary relief", the display form produced by
lines 60-61, which is not an element of the response-type
enumeration. -/
theorem predict_response_not_in_enumeration :
    predictResponse RESPONSE_TYPES clfScenario (fun _ => 0) =
      "Non-monetary relief" ∧
    "Non-monetary relief" ∉ RESPONSE_TYPES := by
  constructor
  · rw [predictResponse, clfScenario_response]
    decide
  · decide

/-- C5 (amended): the response predict_escalation selects is an element
of the response-type enumeration; what predict returns is its display
form — the last underscore chunk, with the leading category text
removed and the result capitalized — not the enumeration element
itself. -/
theorem predict_response_display_form (response_types : List String)
    (clf : (String → ℚ) → ℚ) (row0 : String → ℚ)
    (hne : response_types ≠ []) :
    (predict_escalation response_types clf row0).response ∈ response_types ∧
    predictResponse response_types clf row0 =
      postprocessResponse (predict_escalation response_types clf row0).response := by
  refine ⟨?_, rfl⟩
  show suggestedResponse response_types
    (scoreAll response_types clf row0).1 ∈ response_types
  unfold suggestedResponse
  have hlen : (scoreAll response_types clf row0).1.length =
      response_types.length := by
    rw [scoreAll_fst, List.length_map]
  have hpne : (scoreAll response_types clf row0).1 ≠ [] := by
    intro h
    rw [h] at hlen
    exact hne (List.length_eq_zero.mp hlen.symm)
  have hlt := suggested_index_lt hpne
  rw [hlen] at hlt
  exact getD_mem hlt ""

/-- Witness for C5's amended statement at the scenario classifier. -/
theorem predict_response_display_form_witness :
    (predict_escalation RESPONSE_TYPES clfScenario (fun _ => 0)).response ∈
      RESPONSE_TYPES :=
  (predict_response_display_form RESPONSE_TYPES clfScenario (fun _ => 0)
    (by decide)).1

/-- C6 counterexample: predict_escalation does mutate its input
sentiment row: started from an all-zero row, the returned row state
holds 1 in the dummy column of the last response type. -/
theorem predict_escalation_mutates_input :
    (predict_escalation RESPONSE_TYPES (fun _ => 0) (fun _ => (0 : ℚ))).finalRow ≠
      (fun _ => (0 : ℚ)) := by
  intro hcontra
  have h := congrFun hcontra (keyOf "Untimely response")
  have h1 : (predict_escalation RESPONSE_TYPES (fun _ => 0)
      (fun _ => (0 : ℚ))).finalRow (keyOf "Untimely response") = 1 := by
    norm_num +decide [predict_escalation, scoreAll, scoreStep, oneHotEncode,
      zeroCols, updateCol, keyOf_eq_iff, RESPONSE_TYPES]
  rw [h1] at h
  exact one_ne_zero h

/-- C6 (amended): predict_escalation's only effects beyond classifier
invocation are the saved bar-chart image and the in-place mutation of
its input sentiment row, which it leaves one-hot encoded for the last
response type. -/
theorem predict_escalation_final_row (response_types : List String)
    (clf : (String → ℚ) → ℚ) (row0 : String → ℚ)
    (hne : response_types ≠ []) :
    (predict_escalation response_types clf row0).finalRow =
      oneHotEncode response_types (response_types.getLastD "") row0 := by
  show (scoreAll response_types clf row0).2 = _
  exact scoreAll_snd response_types clf row0 hne

/-- Witness for C6's amended statement. -/
theorem predict_escalation_final_row_witness :
    (predict_escalation RESPONSE_TYPES (fun _ => 0) (fun _ => (0 : ℚ))).finalRow =
      oneHotEncode RESPONSE_TYPES (RESPONSE_TYPES.getLastD "") (fun _ => (0 : ℚ)) :=
  predict_escalation_final_row RESPONSE_TYPES (fun _ => 0) (fun _ => 0)
    (by decide)

/-- C7 counterexample: the empty narrative is not rejected: the very
first operation predict performs on it is sentiment-metric generation,
and no rejection step occurs anywhere in its straight-line body. -/
theorem predict_empty_narrative_not_rejected :
    (predictSteps "").head? = some (PredictStep.sentimentGen "") ∧
    PredictStep.inputRejected ∉ predictSteps "" := by
  constructor
  · rfl
  · decide

/-- C7 (amended): predict performs no input validation at all: for
every narrative, the empty one included, the first operation is
sentiment-metric generation and no input rejection ever occurs. -/
theorem predict_no_input_validation (narrative : String) :
    (predictSteps narrative).head? = some (PredictStep.sentimentGen narrative) ∧
    PredictStep.inputRejected ∉ predictSteps narrative := by
  constructor
  · rfl
  · intro h
    simp [predictSteps] at h

/-- C8 counterexample: a four-dimensional probability output scored
against a two-element label list is accepted and silently indexed — no
assertion comparing the output dimensionality with the label-set size
exists. -/
theorem product_adapter_no_guard_cex :
    predict_product_type ["checking", "mortgage"] [9/10, 1/10, 1/10, 1/10] =
      some "checking" ∧
    ¬ ([9/10, 1/10, 1/10, 1/10] : List ℚ).length =
        (["checking", "mortgage"] : List String).length := by
  constructor
  · norm_num +decide [predict_product_type, argmax, listMax, pyIndex, max_def]
  · decide

/-- C8 (amended): predict_product_type performs no dimensionality
assertion: it indexes the label enumeration at the arg-max directly,
succeeding exactly when that index is in range of the label list,
regardless of whether the probability output has the same length. -/
theorem product_adapter_no_dim_guard (PRODUCT_LABELS : List String)
    (product_type_prob : List ℚ) :
    (predict_product_type PRODUCT_LABELS product_type_prob).isSome = true ↔
      argmax product_type_prob < PRODUCT_LABELS.length := by
  unfold predict_product_type
  constructor
  · intro h
    by_contra hlen
    push_neg at hlen
    rw [get?_eq_none_of_le hlen] at h
    simp at h
  · intro h
    rw [get?_eq_getD h ""]
    rfl

/-- C9: predict_product_type returns the label at the arg-max index of
the probability output: the arg-max value bounds every entry, the
returned label sits at the arg-max position of the enumeration, and a
strict peak at index 2 yields the label at position 2. -/
theorem product_argmax_selection (PRODUCT_LABELS : List String)
    (product_type_prob : List ℚ) (hne : product_type_prob ≠ []) :
    (∀ i, i < product_type_prob.length →
      product_type_prob.getD i 0 ≤
        product_type_prob.getD (argmax product_type_prob) 0) ∧
    (argmax product_type_prob < PRODUCT_LABELS.length →
      predict_product_type PRODUCT_LABELS product_type_prob =
        some (PRODUCT_LABELS.getD (argmax product_type_prob) "")) ∧
    (2 < product_type_prob.length → 2 < PRODUCT_LABELS.length →
      (∀ i, i < product_type_prob.length → i ≠ 2 →
        product_type_prob.getD i 0 < product_type_prob.getD 2 0) →
      predict_product_type PRODUCT_LABELS product_type_prob =
        some (PRODUCT_LABELS.getD 2 "")) := by
  have hargD : product_type_prob.getD (argmax product_type_prob) 0 =
      listMax product_type_prob := pyIndex_getD (listMax_mem hne)
  refine ⟨?_, ?_, ?_⟩
  · intro i hi
    rw [hargD]
    exact le_listMax (getD_mem hi 0)
  · intro hlt
    unfold predict_product_type
    exact get?_eq_getD hlt ""
  · intro h2p h2l hpeak
    have hmax2 : listMax product_type_prob = product_type_prob.getD 2 0 := by
      apply listMax_eq_of (getD_mem h2p 0)
      intro x hx
      obtain ⟨j, hjlt, rfl⟩ := exists_getD_of_mem hx 0
      by_cases hj2 : j = 2
      · subst hj2
        exact le_refl _
      · exact le_of_lt (hpeak j hjlt hj2)
    have harg2 : argmax product_type_prob = 2 := by
      unfold argmax
      rw [hmax2]
      exact pyIndex_eq h2p rfl
        (fun j hj => ne_of_lt (hpeak j (lt_trans hj h2p) (Nat.ne_of_lt hj)))
    unfold predict_product_type
    rw [harg2]
    exact get?_eq_getD h2l ""

/-- Witness for C9: the probability output peaks at index 2, and the
label at position 2 is returned. -/
theorem product_argmax_selection_witness :
    predict_product_type ["bank account", "credit card", "student loan"]
      [1/10, 2/10, 7/10] = some "student loan" := by
  have h := product_argmax_selection ["bank account", "credit card", "student loan"]
    [1/10, 2/10, 7/10] (by simp)
  exact h.2.2 (by norm_num) (by norm_num)
    (by
      intro i hi hne2
      have hi3 : i < 3 := by simpa using hi
      interval_cases i
      · norm_num [List.getD]
      · norm_num [List.getD]
      · exact absurd rfl hne2)

/-- C10: The probability at the suggested index is either the global
minimum of the list or strictly below the ceiling 0.35: the policy
never recommends a response at or above the ceiling unless that
response attains the global minimum. -/
theorem selected_below_ceiling_or_min (probs : List ℚ) (hne : probs ≠ []) :
    probs.getD (suggested_index_of probs) 0 = listMin probs ∨
    probs.getD (suggested_index_of probs) 0 < suggested_prob_thresh := by
  by_cases h : probs.filter (qualifies (listMin probs)) = []
  · have hidx : suggested_index_of probs = pyIndex probs (listMin probs) := by
      unfold suggested_index_of
      rw [recommendState_spec, if_pos h]
    left
    rw [hidx]
    exact pyIndex_getD (listMin_mem hne)
  · have hidx : suggested_index_of probs =
        pyIndex probs (listMax (probs.filter (qualifies (listMin probs)))) := by
      unfold suggested_index_of
      rw [recommendState_spec, if_neg h]
    right
    obtain ⟨hp, hq⟩ := List.mem_filter.mp (listMax_mem h)
    rw [hidx, pyIndex_getD hp]
    exact ((qualifies_iff _ _).mp hq).1

/-- Witness for C10 at the specification's no-qualifying-override
scenario. -/
theorem selected_below_ceiling_or_min_witness :
    [1/20, 6/10, 7/10, 8/10].getD (suggested_index_of [1/20, 6/10, 7/10, 8/10]) 0 =
      listMin [1/20, 6/10, 7/10, 8/10] ∨
    [1/20, 6/10, 7/10, 8/10].getD (suggested_index_of [1/20, 6/10, 7/10, 8/10]) 0 <
      suggested_prob_thresh :=
  selected_below_ceiling_or_min [1/20, 6/10, 7/10, 8/10] (by simp)

end ComplaintsAnalysis
